import Mathlib

/-!
Shallow embedding of the VGA text-mode console driver
(src/modules/axhal/src/platform/x86_pc/vga_buffer.rs) and the stdin ring
buffer, with theorems checking the natural-language specification against
the code.

Machine integers (u8, usize) are modelled as Nat; u8 arithmetic that can
overflow is taken modulo 256 (release-profile two's-complement wrapping).
The memory the VGA buffer lives in is modelled as a total function
Nat -> VgaTextChar over cell indices (the grid occupies indices
0 .. HEIGHT*WIDTH - 1, row-major; larger indices are the adjacent memory
past the grid), so that the raw-pointer bulk copy in scroll_up can be
modelled faithfully, including any out-of-bounds effect.
-/

namespace VgaBuffer

/-- Height of the vga text buffer (VGA_BUFFER_HEIGHT, 25 lines). -/
def VGA_BUFFER_HEIGHT : Nat := 25

/-- Width of the vga text buffer (VGA_BUFFER_WIDTH, 80 columns). -/
def VGA_BUFFER_WIDTH : Nat := 80

/-- Size of the stdin ring buffer (STDIN_BUFFER_SIZE). -/
def STDIN_BUFFER_SIZE : Nat := 1024

/-- The portable 16-color enumeration axlog::ColorCode, as used by
from_console_color in the source. -/
inductive ConsoleColorCode where
  | Black | Red | Green | Yellow | Blue | Magenta | Cyan | White
  | BrightBlack | BrightRed | BrightGreen | BrightYellow
  | BrightBlue | BrightMagenta | BrightCyan | BrightWhite
deriving DecidableEq, Repr

/-- The standard color palette in VGA text mode (enum VgaTextColor). -/
inductive VgaTextColor where
  | Black | Blue | Green | Cyan | Red | Purple | Brown | Gray
  | DarkGray | LightBlue | LightGreen | LightCyan | LightRed
  | LightPurple | Yellow | White
deriving DecidableEq, Repr

/-- Discriminant values of VgaTextColor (repr(u8), 0 to 15 in source order). -/
def VgaTextColor.toNat : VgaTextColor → Nat
  | .Black => 0
  | .Blue => 1
  | .Green => 2
  | .Cyan => 3
  | .Red => 4
  | .Purple => 5
  | .Brown => 6
  | .Gray => 7
  | .DarkGray => 8
  | .LightBlue => 9
  | .LightGreen => 10
  | .LightCyan => 11
  | .LightRed => 12
  | .LightPurple => 13
  | .Yellow => 14
  | .White => 15

/-- VgaTextColor::from_console_color. -/
def from_console_color : ConsoleColorCode → VgaTextColor
  | .Black => .Black
  | .Red => .Red
  | .Green => .Green
  | .Yellow => .Brown
  | .Blue => .Blue
  | .Magenta => .Purple
  | .Cyan => .Cyan
  | .White => .Gray
  | .BrightBlack => .Gray
  | .BrightRed => .LightRed
  | .BrightGreen => .LightGreen
  | .BrightYellow => .Yellow
  | .BrightBlue => .LightBlue
  | .BrightMagenta => .LightPurple
  | .BrightCyan => .LightCyan
  | .BrightWhite => .White

/-- Modelled from the spec: the TryFrom u8 conversion for the external
axlog::ColorCode (the axlog crate is not under src/; only its use site is).
Per the spec's interface section, the recognized values are the ANSI SGR
color codes, with 92 mapping to bright green, 93 to bright yellow and 94 to
bright blue: codes 30 to 37 select the eight base colors and 90 to 97 the
bright variants; every other value is rejected. -/
def consoleColorTryFrom (v : Nat) : Option ConsoleColorCode :=
  if v = 30 then some .Black
  else if v = 31 then some .Red
  else if v = 32 then some .Green
  else if v = 33 then some .Yellow
  else if v = 34 then some .Blue
  else if v = 35 then some .Magenta
  else if v = 36 then some .Cyan
  else if v = 37 then some .White
  else if v = 90 then some .BrightBlack
  else if v = 91 then some .BrightRed
  else if v = 92 then some .BrightGreen
  else if v = 93 then some .BrightYellow
  else if v = 94 then some .BrightBlue
  else if v = 95 then some .BrightMagenta
  else if v = 96 then some .BrightCyan
  else if v = 97 then some .BrightWhite
  else none

/-- VgaTextColorCode::new: packs (bg as u8) shifted left by 4, or-ed with
(fg as u8), into one byte. -/
def VgaTextColorCode.new (fg bg : VgaTextColor) : Nat :=
  bg.toNat * 16 + fg.toNat

/-- A cell of the VGA text buffer: struct VgaTextChar(u8, VgaTextColorCode).
Both components are bytes. -/
structure VgaTextChar where
  ascii : Nat
  color : Nat
deriving DecidableEq, Repr

/-- Sub-state of the escape-sequence interpreter (enum VgaTextSetColor).
The accumulated value in Value is a u8 in the source. -/
inductive VgaTextSetColor where
  | Start
  | LeftBrackets
  | Value (v : Nat)
  | End
deriving DecidableEq, Repr

/-- Interpreter state (enum VgaTextState). -/
inductive VgaTextState where
  | PutChar
  | SetColor (s : VgaTextSetColor)
deriving DecidableEq, Repr

/-- The console device (struct VgaTextMode). The backing buffer, a raw
pointer to HEIGHT x WIDTH cells in the source, is modelled as a total
function from flat cell indices (row-major: index y * WIDTH + x) to cells;
indices at or above HEIGHT * WIDTH denote memory past the grid. -/
structure VgaTextMode where
  current_x : Nat
  current_y : Nat
  current_color : Nat
  state : VgaTextState
  mem : Nat → VgaTextChar

/-- VgaTextMode::scroll_up. The source computes size in BYTES
((HEIGHT - line) * WIDTH * size_of(VgaTextChar), with size_of = 2) and
passes it as the element count to core::ptr::copy, which copies that many
VgaTextChar ELEMENTS from the start of row line to the start of row 0.
ptr::copy has memmove semantics, so every destination cell receives the
value the source cell held before the call, which the functional update
below reproduces. The usize subtraction current_y - line is Nat
subtraction here; all internal call sites guarantee line <= current_y. -/
def VgaTextMode.scroll_up (s : VgaTextMode) (line : Nat) : VgaTextMode :=
  if line > VGA_BUFFER_HEIGHT then s
  else
    let size := (VGA_BUFFER_HEIGHT - line) * VGA_BUFFER_WIDTH * 2
    { s with
      mem := fun i => if i < size then s.mem (line * VGA_BUFFER_WIDTH + i) else s.mem i,
      current_y := s.current_y - line }

/-- VgaTextMode::set_color: stores the given color code, or the default
(white on black) when given None. -/
def VgaTextMode.set_color (s : VgaTextMode) (color : Option Nat) : VgaTextMode :=
  { s with
    current_color := color.getD (VgaTextColorCode.new .White .Black) }

/-- VgaTextMode::process_char: one step of the escape-sequence state
machine. Returns the updated device; the source returns self.state after
the update, so the returned state is the state field of the result. The
u8 accumulation v * 10 + digit wraps modulo 256 (release-profile
semantics). -/
def VgaTextMode.process_char (s : VgaTextMode) (ch : Nat) : VgaTextMode :=
  match s.state with
  | .PutChar =>
      if ch = 0x1b then { s with state := .SetColor .Start } else s
  | .SetColor .Start =>
      if ch = 91 then { s with state := .SetColor .LeftBrackets }
      else { s with state := .PutChar }
  | .SetColor .LeftBrackets =>
      if ch = 109 then
        { s.set_color none with state := .SetColor .End }
      else if 48 ≤ ch ∧ ch ≤ 57 then
        { s with state := .SetColor (.Value (ch - 48)) }
      else { s with state := .PutChar }
  | .SetColor (.Value v) =>
      if ch = 109 then
        let color :=
          match consoleColorTryFrom v with
          | some c => some (VgaTextColorCode.new (from_console_color c) .Black)
          | none => none
        { s.set_color color with state := .SetColor .End }
      else if 48 ≤ ch ∧ ch ≤ 57 then
        { s with state := .SetColor (.Value ((v * 10 + (ch - 48)) % 256)) }
      else { s with state := .PutChar }
  | .SetColor .End =>
      if ch = 0x1b then { s with state := .SetColor .Start }
      else { s with state := .PutChar }

/-- First half of VgaTextMode::putchar: the match on the byte (carriage
return, newline treated as CRLF, backspace, or a glyph write at the
cursor). The backspace decrement current_x - 1 is Nat subtraction; the
source documents current_x > 0 as a precondition for backspace. -/
def VgaTextMode.putcharMove (s : VgaTextMode) (ch : Nat) : VgaTextMode :=
  if ch = 13 then { s with current_x := 0 }
  else if ch = 10 then { s with current_x := 0, current_y := s.current_y + 1 }
  else if ch = 8 then
    let x := s.current_x - 1
    { s with
      current_x := x,
      mem := fun i =>
        if i = s.current_y * VGA_BUFFER_WIDTH + x then
          ⟨32, s.current_color⟩
        else s.mem i }
  else
    { s with
      mem := fun i =>
        if i = s.current_y * VGA_BUFFER_WIDTH + s.current_x then
          ⟨ch, s.current_color⟩
        else s.mem i,
      current_x := s.current_x + 1 }

/-- VgaTextMode::putchar (the inherent method): the byte match above,
then the line wrap at WIDTH, then the scroll normalization at HEIGHT. -/
def VgaTextMode.putchar (s : VgaTextMode) (ch : Nat) : VgaTextMode :=
  let s1 := s.putcharMove ch
  let s2 :=
    if s1.current_x ≥ VGA_BUFFER_WIDTH then
      { s1 with current_x := 0, current_y := s1.current_y + 1 }
    else s1
  if s2.current_y ≥ VGA_BUFFER_HEIGHT then
    s2.scroll_up (s2.current_y - VGA_BUFFER_HEIGHT + 1)
  else s2

/-- The public free function putchar, with the lock already held: feeds the
byte to process_char and, when the resulting state is PutChar, writes the
byte through the inherent putchar. -/
def putcharPub (ch : Nat) (s : VgaTextMode) : VgaTextMode :=
  let s1 := s.process_char ch
  match s1.state with
  | .PutChar => s1.putchar ch
  | .SetColor _ => s1

/-- Feeding a byte sequence through the public putchar entry point, one
locked call per byte. -/
def feedT (l : List Nat) (s : VgaTextMode) : VgaTextMode :=
  match l with
  | [] => s
  | c :: cs => feedT cs (putcharPub c s)

/-- The console device right after init_early: cursor at the origin,
default color, PutChar state, every grid cell a space in the default
color (memory past the grid is also modelled as spaces). -/
def initMode : VgaTextMode :=
  { current_x := 0
    current_y := 0
    current_color := VgaTextColorCode.new .White .Black
    state := .PutChar
    mem := fun _ => ⟨32, VgaTextColorCode.new .White .Black⟩ }

/-- Process-wide state of the console subsystem: the VGA device singleton,
whether its SpinNoIrq lock is currently held, and the LEVEL_DEBUG static
(initially 3). -/
structure Sys where
  vga : VgaTextMode
  vgaLocked : Bool
  levelDebug : Nat

/-- The public free function putchar as the outside world calls it: it
acquires the VGA spinlock first. A SpinNoIrq acquired by a context that
already holds it spins forever (interrupts are disabled by the holder, so
nothing can ever release it); that divergence is modelled as none. On
success the lock guard is dropped before returning. -/
def putcharLocked (ch : Nat) (sys : Sys) : Option Sys :=
  if sys.vgaLocked then none
  else some { sys with vga := putcharPub ch sys.vga }

/-- The Write::write_str implementation on VgaTextMode as written in the
source: it iterates the bytes of the string and calls the PUBLIC free
function putchar on each one (not the inherent method), so every byte
attempts to take the VGA lock. -/
def write_str (l : List Nat) (sys : Sys) : Option Sys :=
  match l with
  | [] => some sys
  | c :: cs => (putcharLocked c sys).bind (write_str cs)

/-- Bytes of the level-1 tag string of print_debug. -/
def infoTag : List Nat := [91, 73, 78, 70, 79, 93, 32, 32]

/-- Bytes of the level-2 tag string of print_debug. -/
def devTag : List Nat := [91, 68, 69, 86, 93, 32, 32, 32]

/-- Bytes of the level-3 tag string of print_debug. -/
def debugTag : List Nat := [91, 68, 69, 66, 85, 71, 93, 32]

/-- Helper of print_debug: while the VGA lock is held, set the tag color
on the guarded device, write the tag through write_str, restore the
default color, write the formatted text through write_fmt (which funnels
into the same write_str), then drop the lock guard and return Ok (true). -/
def printTagged (tag : List Nat) (tagColor : Nat) (args : List Nat)
    (sys : Sys) : Option (Sys × Bool) :=
  let s1 := { sys with vga := sys.vga.set_color (some tagColor) }
  (write_str tag s1).bind fun s2 =>
    let white := VgaTextColorCode.new .White .Black
    let s3 := { s2 with vga := s2.vga.set_color (some white) }
    (write_str args s3).map fun s4 => ({ s4 with vgaLocked := false }, true)

/-- The public print_debug entry point. A level above LEVEL_DEBUG returns
Err before touching the lock; otherwise the VGA lock is acquired and held
for the rest of the call. Levels 1 to 3 emit a colored tag and the
formatted text; any other level releases the lock and returns Err. The
Result is modelled as Bool (true for Ok); divergence (deadlock) as none. -/
def print_debug (level : Nat) (args : List Nat) (sys : Sys) :
    Option (Sys × Bool) :=
  if level > sys.levelDebug then some (sys, false)
  else if sys.vgaLocked then none
  else
    let locked := { sys with vgaLocked := true }
    if level = 1 then
      printTagged infoTag (VgaTextColorCode.new .LightGreen .Black) args locked
    else if level = 2 then
      printTagged devTag (VgaTextColorCode.new .LightBlue .Black) args locked
    else if level = 3 then
      printTagged debugTag (VgaTextColorCode.new .Yellow .Black) args locked
    else
      some ({ locked with vgaLocked := false }, false)

/-- The public set_max_level: panics (modelled as none) when level > 3,
otherwise stores the level into LEVEL_DEBUG. -/
def set_max_level (level : Nat) (sys : Sys) : Option Sys :=
  if level > 3 then none
  else some { sys with levelDebug := level }

/-- The process-wide state at boot: device freshly initialized, lock free,
LEVEL_DEBUG at its initial value 3. -/
def initSys : Sys :=
  { vga := initMode, vgaLocked := false, levelDebug := 3 }

/-- The stdin ring buffer (struct StdinBuffer). The fixed byte array is
modelled as a total function on Nat; only indices below STDIN_BUFFER_SIZE
are ever read or written. -/
structure StdinBuffer where
  buffer : Nat → Nat
  head : Nat
  tail : Nat
  size : Nat

/-- StdinBuffer::new. -/
def StdinBuffer.new : StdinBuffer :=
  { buffer := fun _ => 0, head := 0, tail := 0, size := 0 }

/-- StdinBuffer::push: appends at tail unless the buffer is full, in which
case the byte is silently dropped. -/
def StdinBuffer.push (b : StdinBuffer) (data : Nat) : StdinBuffer :=
  if b.size < STDIN_BUFFER_SIZE then
    { b with
      buffer := fun i => if i = b.tail then data else b.buffer i,
      tail := (b.tail + 1) % STDIN_BUFFER_SIZE,
      size := b.size + 1 }
  else b

/-- StdinBuffer::pop: removes and returns the byte at head, or none when
empty. -/
def StdinBuffer.pop (b : StdinBuffer) : Option Nat × StdinBuffer :=
  if b.size > 0 then
    (some (b.buffer b.head),
     { b with head := (b.head + 1) % STDIN_BUFFER_SIZE, size := b.size - 1 })
  else (none, b)

/-- Pushing a whole list of bytes in order. -/
def pushAll (b : StdinBuffer) (l : List Nat) : StdinBuffer :=
  match l with
  | [] => b
  | d :: ds => pushAll (b.push d) ds

/-- Popping n times, collecting the returned bytes in order; stops early
if a pop reports empty. -/
def popN (n : Nat) (b : StdinBuffer) : List Nat :=
  match n with
  | 0 => []
  | k + 1 =>
    match b.pop with
    | (some d, b1) => d :: popN k b1
    | (none, _) => []

/-- Draining the buffer: popping until empty. -/
def drain (b : StdinBuffer) : List Nat := popN b.size b

/-- A concrete pre-scroll device used to exhibit the scroll_up bug: every
memory cell holds its own index modulo 256, so distinct cells are
distinguishable. -/
def scrollProbe : VgaTextMode :=
  { initMode with current_y := 24, mem := fun i => ⟨i % 256, 0⟩ }

/-- Where a public putchar call would panic in the Rust source (with
release-profile arithmetic): the backspace underflow of current_x - 1 at
column 0 (a debug-profile overflow panic; in release the index wraps and
the array bounds check panics instead, so column 0 is fatal in both
profiles), and the bounds checks of the chars[y][x] indexing. The newline
and carriage-return paths perform no indexing; the scroll path subtracts
line = current_y - HEIGHT + 1 from current_y, which cannot underflow; the
u8 digit accumulation in process_char wraps in release; and the ptr::copy
in scroll_up is unchecked raw-memory access, not a panic. -/
def panicsAt (s : VgaTextMode) (c : Nat) : Bool :=
  let s1 := s.process_char c
  match s1.state with
  | .PutChar =>
      if c = 13 then false
      else if c = 10 then false
      else if c = 8 then
        decide (s1.current_x = 0) ||
        decide (VGA_BUFFER_HEIGHT ≤ s1.current_y) ||
        decide (VGA_BUFFER_WIDTH ≤ s1.current_x - 1)
      else
        decide (VGA_BUFFER_HEIGHT ≤ s1.current_y) ||
        decide (VGA_BUFFER_WIDTH ≤ s1.current_x)
  | .SetColor _ => false

/-- The documented precondition violation: a backspace byte that reaches
the printing path while the cursor is at column 0. -/
def badBackspaceAt (s : VgaTextMode) (c : Nat) : Bool :=
  match (s.process_char c).state with
  | .PutChar => decide (c = 8 ∧ s.current_x = 0)
  | .SetColor _ => false

/-- Whether any call panics while feeding a byte sequence. -/
def tracePanics (s : VgaTextMode) : List Nat → Bool
  | [] => false
  | c :: cs => panicsAt s c || tracePanics (putcharPub c s) cs

/-- Whether any step of a byte sequence violates the backspace
precondition. -/
def badBackspaceTrace (s : VgaTextMode) : List Nat → Bool
  | [] => false
  | c :: cs => badBackspaceAt s c || badBackspaceTrace (putcharPub c s) cs

/-- Well-formedness of the ring buffer: head in range, size within
capacity, and tail sitting size slots past head (mod capacity). -/
def Wf (b : StdinBuffer) : Prop :=
  b.head < STDIN_BUFFER_SIZE ∧ b.size ≤ STDIN_BUFFER_SIZE ∧
  b.tail = (b.head + b.size) % STDIN_BUFFER_SIZE

/-- The queue a ring buffer state represents: the size bytes starting at
head, oldest first. -/
def contents (b : StdinBuffer) : List Nat :=
  (List.range b.size).map fun i => b.buffer ((b.head + i) % STDIN_BUFFER_SIZE)

/-- ASCII decimal digit test, as in the digit arms of process_char. -/
def isDigit (c : Nat) : Bool := decide (48 ≤ c ∧ c ≤ 57)

/-- The shapes of escape sequences the abort claim quantifies over: a
sequence opened by ESC and ended by a trigger byte t that is neither a
digit nor a left bracket (nor, once inside the bracket, the terminator m):
either ESC directly followed by t, or ESC [ followed by zero or more
digits and then t. -/
def EscAbort (mid : List Nat) (t : Nat) : Prop :=
  (mid = [] ∧ isDigit t = false ∧ t ≠ 91) ∨
  (∃ ds, mid = 91 :: ds ∧ (∀ d ∈ ds, isDigit d = true) ∧
    isDigit t = false ∧ t ≠ 91 ∧ t ≠ 109)

/-- A byte the glyph path of putchar prints as a glyph: not CR, LF,
backspace or ESC. -/
def PrintableByte (c : Nat) : Prop := c ≠ 13 ∧ c ≠ 10 ∧ c ≠ 8 ∧ c ≠ 27

/-- The memory after writing the bytes of a list into consecutive cells
starting at a base index, in the given color. -/
def writeRun (base color : Nat) (l : List Nat) (mem : Nat → VgaTextChar) :
    Nat → VgaTextChar :=
  match l with
  | [] => mem
  | c :: cs =>
      writeRun (base + 1) color cs
        (fun i => if i = base then ⟨c, color⟩ else mem i)

/-- Device sitting at the start of the bottom row, used for the C5
counterexample. -/
def lastRowMode : VgaTextMode := { initMode with current_y := 24 }

/-! Helper lemmas. -/

/-- The interpreter step touches neither the cursor nor the grid. -/
lemma process_char_frame (s : VgaTextMode) (c : Nat) :
    (s.process_char c).current_x = s.current_x ∧
    (s.process_char c).current_y = s.current_y ∧
    (s.process_char c).mem = s.mem := by
  rcases s with ⟨x, y, col, st, mem⟩
  rcases st with _ | sub
  · simp only [VgaTextMode.process_char]
    split <;> simp
  · rcases sub with _ | _ | v | _ <;>
      simp only [VgaTextMode.process_char, VgaTextMode.set_color] <;>
      split <;> try split
    all_goals simp

/-- The interpreter step can change the color only on a terminating m
byte (0x6d). -/
lemma process_char_color (s : VgaTextMode) (c : Nat) (hc : c ≠ 109) :
    (s.process_char c).current_color = s.current_color := by
  rcases s with ⟨x, y, col, st, mem⟩
  rcases st with _ | sub
  · simp only [VgaTextMode.process_char]
    split <;> simp
  · rcases sub with _ | _ | v | _ <;>
      simp only [VgaTextMode.process_char, VgaTextMode.set_color] <;>
      split <;> simp_all <;> split <;> simp

/-- Cursor column after the byte match of putchar. -/
lemma putcharMove_x (s : VgaTextMode) (ch : Nat) :
    (s.putcharMove ch).current_x =
      if ch = 13 then 0 else if ch = 10 then 0
      else if ch = 8 then s.current_x - 1 else s.current_x + 1 := by
  simp only [VgaTextMode.putcharMove]
  split_ifs <;> simp_all

/-- Cursor row after the byte match of putchar. -/
lemma putcharMove_y (s : VgaTextMode) (ch : Nat) :
    (s.putcharMove ch).current_y =
      if ch = 10 then s.current_y + 1 else s.current_y := by
  simp only [VgaTextMode.putcharMove]
  split_ifs <;> simp_all

/-- scroll_up does not move the cursor column. -/
lemma scroll_up_x (s : VgaTextMode) (line : Nat) :
    (s.scroll_up line).current_x = s.current_x := by
  simp only [VgaTextMode.scroll_up]
  split <;> rfl

/-- Cursor row after scroll_up. -/
lemma scroll_up_y (s : VgaTextMode) (line : Nat) :
    (s.scroll_up line).current_y =
      if line > VGA_BUFFER_HEIGHT then s.current_y else s.current_y - line := by
  simp only [VgaTextMode.scroll_up]
  split <;> simp_all

/-- The inherent putchar keeps the cursor inside the grid whenever it was
inside the grid on entry (the backspace decrement at column 0 truncates at
zero in this Nat model; the corresponding Rust panic is treated in
panicsAt). -/
lemma putchar_bounds (s : VgaTextMode) (ch : Nat)
    (hx : s.current_x < VGA_BUFFER_WIDTH) (hy : s.current_y < VGA_BUFFER_HEIGHT) :
    (s.putchar ch).current_x < VGA_BUFFER_WIDTH ∧
    (s.putchar ch).current_y < VGA_BUFFER_HEIGHT := by
  have hx1 : (s.putcharMove ch).current_x ≤ s.current_x + 1 := by
    rw [putcharMove_x]; split_ifs <;> omega
  have hy1 : (s.putcharMove ch).current_y ≤ s.current_y + 1 := by
    rw [putcharMove_y]; split_ifs <;> omega
  simp only [VgaTextMode.putchar]
  generalize s.putcharMove ch = t at hx1 hy1
  by_cases hw : t.current_x ≥ VGA_BUFFER_WIDTH <;>
    simp only [hw, if_true, if_false, ite_true, ite_false] <;>
    split <;>
    (try simp only [scroll_up_x, scroll_up_y]) <;>
    (try split_ifs) <;>
    (try simp only [VGA_BUFFER_WIDTH, VGA_BUFFER_HEIGHT] at *) <;>
    omega

/-- The public putchar keeps the cursor inside the grid. -/
lemma putcharPub_bounds (s : VgaTextMode) (ch : Nat)
    (hx : s.current_x < VGA_BUFFER_WIDTH) (hy : s.current_y < VGA_BUFFER_HEIGHT) :
    (putcharPub ch s).current_x < VGA_BUFFER_WIDTH ∧
    (putcharPub ch s).current_y < VGA_BUFFER_HEIGHT := by
  have hfr := process_char_frame s ch
  simp only [putcharPub]
  split
  · exact putchar_bounds _ ch (by omega) (by omega)
  · exact ⟨by omega, by omega⟩

/-! Claim theorems. -/

/-- C1: the claim says no console operation re-acquires the console lock
it already holds, and in particular that print_debug emits its tag without
re-invoking the lock-acquiring public put_char entry point. The code does
the opposite: the Write::write_str impl on VgaTextMode calls the public
free function putchar for every byte, and print_debug calls write_str
while holding the VGA SpinNoIrq lock, so every tag-emitting call
(level 1, 2 or 3 passing the gate) self-deadlocks, modelled as none. -/
theorem print_debug_tagged_levels_deadlock :
    print_debug 1 [72] initSys = none ∧
    print_debug 2 [72] initSys = none ∧
    print_debug 3 [72] initSys = none :=
  ⟨rfl, rfl, rfl⟩

/-- C2: the claim says scroll_up(n) copies rows within the grid and
touches no cell outside the grid. The code computes the region size in
BYTES and passes it to core::ptr::copy as an ELEMENT count, so it copies
twice as many cells as intended: scroll_up(1) rewrites cell index 2000,
the first cell past the 25 x 80 grid. -/
theorem scroll_up_writes_outside_grid :
    (scrollProbe.scroll_up 1).mem (VGA_BUFFER_HEIGHT * VGA_BUFFER_WIDTH) ≠
      scrollProbe.mem (VGA_BUFFER_HEIGHT * VGA_BUFFER_WIDTH) := by
  decide

/-- C9: set_max_level panics exactly on levels above 3 and otherwise
stores the level in LEVEL_DEBUG and returns normally. -/
theorem set_max_level_panics_iff (level : Nat) (sys : Sys) :
    (3 < level → set_max_level level sys = none) ∧
    (level ≤ 3 → set_max_level level sys = some { sys with levelDebug := level }) := by
  constructor <;> intro h <;> simp [set_max_level] <;> omega

/-- Witness for C9 at levels 4 and 2. -/
theorem set_max_level_panics_iff_witness :
    set_max_level 4 initSys = none ∧
    set_max_level 2 initSys = some { initSys with levelDebug := 2 } :=
  ⟨(set_max_level_panics_iff 4 initSys).1 (by decide),
   (set_max_level_panics_iff 2 initSys).2 (by decide)⟩

/-- C7: a print_debug call with level 0, level above 3, or level above
the configured maximum mutates nothing (device state, cursor, color and
grid are returned exactly as given) and reports the filtered outcome
(the Err value, modelled false), identically in all three cases. -/
theorem print_debug_filtered_noop (level : Nat) (args : List Nat) (sys : Sys)
    (hl : sys.vgaLocked = false) (hd : sys.levelDebug ≤ 3)
    (h : level = 0 ∨ 3 < level ∨ sys.levelDebug < level) :
    print_debug level args sys = some (sys, false) := by
  have filtered : sys.levelDebug < level → print_debug level args sys = some (sys, false) := by
    intro hgate
    simp [print_debug, hgate]
  rcases h with h0 | h3 | hgate
  · subst h0
    rcases sys with ⟨vga, locked, d⟩
    simp only at hl
    subst hl
    simp [print_debug]
  · exact filtered (by omega)
  · exact filtered hgate

/-- Witness for C7: a level-0 call on the freshly booted system. -/
theorem print_debug_filtered_noop_witness :
    print_debug 0 [72] initSys = some (initSys, false) :=
  print_debug_filtered_noop 0 [72] initSys rfl (by decide) (Or.inl rfl)

/-- C10: a byte classified as part of an escape sequence (the interpreter
state after the byte is not PutChar) leaves cursor and grid untouched
through the public putchar entry point, and can change the color only if
it is the terminating m byte. -/
theorem swallowed_byte_frame (s : VgaTextMode) (c : Nat)
    (h : (s.process_char c).state ≠ VgaTextState.PutChar) :
    (putcharPub c s).current_x = s.current_x ∧
    (putcharPub c s).current_y = s.current_y ∧
    (putcharPub c s).mem = s.mem ∧
    (c ≠ 109 → (putcharPub c s).current_color = s.current_color) := by
  have hfr := process_char_frame s c
  simp only [putcharPub]
  split
  · exact absurd (by assumption) h
  · exact ⟨hfr.1, hfr.2.1, hfr.2.2, fun hm => process_char_color s c hm⟩

/-- Witness for C10: the ESC byte on the freshly initialized device. -/
theorem swallowed_byte_frame_witness :
    (putcharPub 27 initMode).current_x = initMode.current_x ∧
    (putcharPub 27 initMode).current_y = initMode.current_y ∧
    (putcharPub 27 initMode).mem = initMode.mem ∧
    ((27 : Nat) ≠ 109 → (putcharPub 27 initMode).current_color = initMode.current_color) :=
  swallowed_byte_frame initMode 27 (by decide)

/-- C8: under the documented backspace precondition, one public put_char
call preserves the cursor invariant: current_x below WIDTH and current_y
below HEIGHT at return (a transient current_y equal to HEIGHT inside the
call is normalized by the scroll before returning). -/
theorem putchar_preserves_cursor_bounds (s : VgaTextMode) (c : Nat)
    (hx : s.current_x < VGA_BUFFER_WIDTH) (hy : s.current_y < VGA_BUFFER_HEIGHT)
    (hbs : c = 8 → 0 < s.current_x) :
    (putcharPub c s).current_x < VGA_BUFFER_WIDTH ∧
    (putcharPub c s).current_y < VGA_BUFFER_HEIGHT :=
  putcharPub_bounds s c hx hy

/-- Witness for C8: a newline on the freshly initialized device. -/
theorem putchar_preserves_cursor_bounds_witness :
    (putcharPub 10 initMode).current_x < VGA_BUFFER_WIDTH ∧
    (putcharPub 10 initMode).current_y < VGA_BUFFER_HEIGHT :=
  putchar_preserves_cursor_bounds initMode 10 (by decide) (by decide) (by decide)

/-- With the cursor inside the grid, a single putchar call can panic only
through the documented backspace-at-column-0 precondition violation. -/
lemma panicsAt_eq (s : VgaTextMode) (c : Nat)
    (hx : s.current_x < VGA_BUFFER_WIDTH) (hy : s.current_y < VGA_BUFFER_HEIGHT) :
    panicsAt s c = badBackspaceAt s c := by
  obtain ⟨f1, f2, f3⟩ := process_char_frame s c
  cases h1 : (s.process_char c).state with
  | PutChar =>
      simp only [VGA_BUFFER_WIDTH, VGA_BUFFER_HEIGHT] at hx hy
      simp only [panicsAt, badBackspaceAt, h1]
      split_ifs with hc13 hc10 hc8 <;>
        rw [Bool.eq_iff_iff] <;>
        simp only [Bool.or_eq_true, decide_eq_true_eq, f1, f2,
          Bool.false_eq_true, false_iff, VGA_BUFFER_WIDTH, VGA_BUFFER_HEIGHT] <;>
        omega
  | SetColor sub =>
      simp only [panicsAt, badBackspaceAt, h1]

/-- C3: feeding any byte sequence through the public put_char entry point
on a device whose cursor is inside the grid, a panic or abort occurs
exactly when the documented backspace-at-column-0 precondition is
violated; in particular arbitrary escape sequences (any number of digits,
any terminator) never crash. -/
theorem putchar_only_panic_is_backspace_at_zero (cs : List Nat) (s : VgaTextMode)
    (hx : s.current_x < VGA_BUFFER_WIDTH) (hy : s.current_y < VGA_BUFFER_HEIGHT) :
    tracePanics s cs = badBackspaceTrace s cs := by
  induction cs generalizing s with
  | nil => rfl
  | cons c cs ih =>
      have hb := putcharPub_bounds s c hx hy
      simp only [tracePanics, badBackspaceTrace, panicsAt_eq s c hx hy,
        ih (putcharPub c s) hb.1 hb.2]

/-- Witness for C3: the overlong escape sequence ESC [ 9 9 9 m of the
claim, fed on the freshly initialized device, panics nowhere. -/
theorem putchar_only_panic_witness :
    initMode.current_x < VGA_BUFFER_WIDTH ∧
    initMode.current_y < VGA_BUFFER_HEIGHT ∧
    tracePanics initMode [27, 91, 57, 57, 57, 109] =
      badBackspaceTrace initMode [27, 91, 57, 57, 57, 109] ∧
    tracePanics initMode [27, 91, 57, 57, 57, 109] = false :=
  ⟨by decide, by decide,
   putchar_only_panic_is_backspace_at_zero [27, 91, 57, 57, 57, 109] initMode
     (by decide) (by decide),
   by decide⟩

lemma wf_new : Wf StdinBuffer.new :=
  ⟨by decide, by decide, by decide⟩

lemma wf_push (b : StdinBuffer) (d : Nat) (h : Wf b) : Wf (b.push d) := by
  obtain ⟨h1, h2, h3⟩ := h
  unfold StdinBuffer.push
  split_ifs with hlt
  · refine ⟨h1, by dsimp only; omega, ?_⟩
    dsimp only
    rw [h3, Nat.mod_add_mod, Nat.add_assoc]
  · exact ⟨h1, h2, h3⟩

lemma push_full (b : StdinBuffer) (d : Nat) (h : ¬ b.size < STDIN_BUFFER_SIZE) :
    b.push d = b := by
  simp [StdinBuffer.push, h]

lemma size_push (b : StdinBuffer) (d : Nat) (hlt : b.size < STDIN_BUFFER_SIZE) :
    (b.push d).size = b.size + 1 := by
  simp [StdinBuffer.push, hlt]

lemma contents_push (b : StdinBuffer) (d : Nat) (h : Wf b)
    (hlt : b.size < STDIN_BUFFER_SIZE) :
    contents (b.push d) = contents b ++ [d] := by
  obtain ⟨h1, h2, h3⟩ := h
  simp only [StdinBuffer.push, if_pos hlt, contents]
  rw [List.range_succ, List.map_append]
  congr 1
  · apply List.map_congr_left
    intro i hi
    simp only [List.mem_range] at hi
    rw [if_neg]
    rw [h3]
    intro heq
    have hcan : i ≡ b.size [MOD STDIN_BUFFER_SIZE] :=
      Nat.ModEq.add_left_cancel' b.head heq
    have hi2 : i % STDIN_BUFFER_SIZE = i := Nat.mod_eq_of_lt (by omega)
    have hs2 : b.size % STDIN_BUFFER_SIZE = b.size := Nat.mod_eq_of_lt hlt
    unfold Nat.ModEq at hcan
    omega
  · simp [h3]

lemma popN_contents (n : Nat) : ∀ b : StdinBuffer, Wf b → b.size = n →
    popN n b = contents b := by
  induction n with
  | zero =>
      intro b _ h0
      simp [popN, contents, h0]
  | succ k ih =>
      intro b hw hs
      obtain ⟨h1, h2, h3⟩ := hw
      simp only [popN, StdinBuffer.pop, if_pos (show b.size > 0 by omega)]
      have hwf1 : Wf { b with head := (b.head + 1) % STDIN_BUFFER_SIZE, size := b.size - 1 } := by
        refine ⟨Nat.mod_lt _ (by decide), by dsimp only; omega, ?_⟩
        dsimp only
        rw [h3, Nat.mod_add_mod]
        congr 1
        omega
      rw [ih _ hwf1 (by dsimp only; omega)]
      simp only [contents, hs, Nat.add_sub_cancel]
      rw [List.range_succ_eq_map]
      simp only [List.map_cons, List.map_map]
      congr 1
      · rw [Nat.add_zero, Nat.mod_eq_of_lt h1]
      · apply List.map_congr_left
        intro i _
        simp only [Function.comp]
        have harg : ((b.head + 1) % STDIN_BUFFER_SIZE + i) % STDIN_BUFFER_SIZE
            = (b.head + (i + 1)) % STDIN_BUFFER_SIZE := by
          rw [Nat.mod_add_mod]
          congr 1
          omega
        simp [harg]

lemma drain_pushAll : ∀ (l : List Nat) (b : StdinBuffer), Wf b →
    drain (pushAll b l) =
      contents b ++ l.take (STDIN_BUFFER_SIZE - b.size) := by
  intro l
  induction l with
  | nil =>
      intro b hw
      simp only [pushAll, drain, List.take_nil, List.append_nil]
      exact popN_contents _ b hw rfl
  | cons d ds ih =>
      intro b hw
      by_cases hlt : b.size < STDIN_BUFFER_SIZE
      · simp only [pushAll]
        rw [ih _ (wf_push b d hw), contents_push b d hw hlt, size_push b d hlt]
        have hstep : STDIN_BUFFER_SIZE - b.size =
            (STDIN_BUFFER_SIZE - (b.size + 1)) + 1 := by omega
        rw [hstep, List.take_succ_cons, List.append_assoc]
        rfl
      · simp only [pushAll, push_full b d hlt]
        rw [ih b hw]
        have hz : STDIN_BUFFER_SIZE - b.size = 0 := by omega
        simp [hz]

/-- Feeding a concatenation feeds the two parts in order. -/
lemma feedT_append (a b : List Nat) : ∀ s : VgaTextMode,
    feedT (a ++ b) s = feedT b (feedT a s) := by
  induction a with
  | nil => intro s; rfl
  | cons c cs ih =>
      intro s
      rw [List.cons_append]
      simp only [feedT]
      exact ih _

/-- Feeding digits while inside the bracketed part of an escape sequence
only moves the interpreter between the LeftBrackets and Value states;
nothing else in the device changes. -/
lemma feed_digits (ds : List Nat) : ∀ s : VgaTextMode,
    (∀ d ∈ ds, isDigit d = true) →
    (s.state = .SetColor .LeftBrackets ∨ ∃ v, s.state = .SetColor (.Value v)) →
    ∃ st, (st = VgaTextSetColor.LeftBrackets ∨ ∃ v, st = VgaTextSetColor.Value v) ∧
      feedT ds s = { s with state := .SetColor st } := by
  induction ds with
  | nil =>
      intro s _ hst
      rcases s with ⟨x, y, col, st0, mem⟩
      simp only at hst
      rcases hst with h | ⟨v, h⟩
      · exact ⟨.LeftBrackets, Or.inl rfl, by rw [h]; rfl⟩
      · exact ⟨.Value v, Or.inr ⟨v, rfl⟩, by rw [h]; rfl⟩
  | cons d rest ih =>
      intro s hds hst
      have hd : isDigit d = true := hds d (List.mem_cons_self d rest)
      have hdig : 48 ≤ d ∧ d ≤ 57 := by simpa [isDigit] using hd
      have hne : ¬ d = 109 := by omega
      have hrest : ∀ e ∈ rest, isDigit e = true :=
        fun e he => hds e (List.mem_cons_of_mem d he)
      rcases hst with h | ⟨v, h⟩
      · have hstep : putcharPub d s =
            { s with state := .SetColor (.Value (d - 48)) } := by
          simp only [putcharPub, VgaTextMode.process_char, h, if_neg hne,
            if_pos hdig]
        obtain ⟨st, hout, heq⟩ :=
          ih { s with state := .SetColor (.Value (d - 48)) } hrest
            (Or.inr ⟨d - 48, rfl⟩)
        refine ⟨st, hout, ?_⟩
        rw [feedT, hstep, heq]
      · have hstep : putcharPub d s =
            { s with state := .SetColor (.Value ((v * 10 + (d - 48)) % 256)) } := by
          simp only [putcharPub, VgaTextMode.process_char, h, if_neg hne,
            if_pos hdig]
        obtain ⟨st, hout, heq⟩ :=
          ih { s with state := .SetColor (.Value ((v * 10 + (d - 48)) % 256)) }
            hrest (Or.inr ⟨(v * 10 + (d - 48)) % 256, rfl⟩)
        refine ⟨st, hout, ?_⟩
        rw [feedT, hstep, heq]

/-- Replacing the state field by the value it already has is the
identity. -/
lemma state_update_self (s : VgaTextMode) (st : VgaTextState)
    (h : s.state = st) : { s with state := st } = s := by
  rcases s with ⟨x, y, col, st0, mem⟩
  simp only at h
  rw [h]

/-- Feeding ESC from the printable state only records the Start state. -/
lemma putcharPub_esc (s : VgaTextMode) (hst : s.state = .PutChar) :
    putcharPub 27 s = { s with state := .SetColor .Start } := by
  simp [putcharPub, VgaTextMode.process_char, hst]

/-- C4 counterexample: the sequence ESC LF is an escape sequence aborted
by a non-digit, non-bracket byte (LF), so the claim as stated requires LF
to be printed as a glyph at the cursor position (0, 0). Instead the whole
grid is left untouched (the cell at the cursor keeps its space) and LF
performs its newline action. -/
theorem esc_abort_lf_not_glyph :
    (feedT [27] initMode).mem = initMode.mem ∧
    (feedT [27, 10] initMode).mem = initMode.mem ∧
    (feedT [27, 10] initMode).mem 0 ≠ ⟨10, initMode.current_color⟩ ∧
    (feedT [27, 10] initMode).current_y = 1 :=
  ⟨rfl, rfl, by decide, rfl⟩

/-- C4 (amended): for every escape sequence opened by ESC and aborted by
a non-digit, non-bracket (and, inside the bracket, non-m) trigger byte,
every swallowed byte leaves the grid and the cursor unchanged, and the
triggering byte is then handed to the ordinary putchar routine of the
device in its printable state — so a non-control trigger is printed as a
glyph at the cursor, while CR, LF and backspace perform their carriage
action instead. -/
theorem esc_abort_swallow_then_putchar (s : VgaTextMode) (mid : List Nat)
    (t : Nat) (hst : s.state = .PutChar) (hab : EscAbort mid t) :
    (∀ n, n ≤ mid.length + 1 →
      (feedT (List.take n (27 :: mid)) s).mem = s.mem ∧
      (feedT (List.take n (27 :: mid)) s).current_x = s.current_x ∧
      (feedT (List.take n (27 :: mid)) s).current_y = s.current_y) ∧
    feedT (27 :: mid ++ [t]) s = s.putchar t := by
  have h27 := putcharPub_esc s hst
  have hs2 : { s with state := VgaTextState.PutChar } = s :=
    state_update_self s _ hst
  rcases hab with ⟨hmid, hdt, ht91⟩ | ⟨ds, hmid, hds, hdt, ht91, ht109⟩
  · subst hmid
    constructor
    · intro n hn
      simp only [List.length_nil] at hn
      rcases n with _ | n1
      · exact ⟨rfl, rfl, rfl⟩
      · rcases n1 with _ | k
        · simp [List.take_succ_cons, feedT, h27]
        · omega
    · simp only [List.nil_append, feedT, h27]
      simp only [putcharPub, VgaTextMode.process_char, if_neg ht91]
      rw [hs2]
  · subst hmid
    have h91 : putcharPub 91 { s with state := .SetColor .Start } =
        { s with state := .SetColor .LeftBrackets } := by
      simp [putcharPub, VgaTextMode.process_char]
    have hnd : ¬ (48 ≤ t ∧ t ≤ 57) := by
      apply of_decide_eq_false
      simpa [isDigit] using hdt
    constructor
    · intro n hn
      rcases n with _ | n1
      · exact ⟨rfl, rfl, rfl⟩
      · rcases n1 with _ | k
        · simp [List.take_succ_cons, feedT, h27]
        · simp only [List.take_succ_cons, feedT, h27, h91]
          obtain ⟨st, _, heq⟩ :=
            feed_digits (List.take k ds) { s with state := .SetColor .LeftBrackets }
              (fun d hd => hds d (List.take_subset k ds hd)) (Or.inl rfl)
          rw [heq]
          exact ⟨rfl, rfl, rfl⟩
    · simp only [List.cons_append, feedT, h27, h91]
      simp only [List.append_eq] at *
      rw [feedT_append]
      obtain ⟨st, hout, heq⟩ :=
        feed_digits ds { s with state := .SetColor .LeftBrackets } hds (Or.inl rfl)
      rw [heq]
      rcases hout with h | ⟨v, h⟩ <;> subst h
      · simp only [feedT, putcharPub, VgaTextMode.process_char, if_neg ht109,
          if_neg hnd]
        rw [hs2]
      · simp only [feedT, putcharPub, VgaTextMode.process_char, if_neg ht109,
          if_neg hnd]
        rw [hs2]

/-- Witness for C4 (amended): the sequence ESC [ 9 5 A on the freshly
initialized device ends as a plain putchar of the byte A. -/
theorem esc_abort_swallow_then_putchar_witness :
    feedT (27 :: [91, 57, 53] ++ [65]) initMode = initMode.putchar 65 :=
  (esc_abort_swallow_then_putchar initMode [91, 57, 53] 65 rfl
    (Or.inr ⟨[57, 53], rfl, by decide, by decide, by decide, by decide⟩)).2

/-- C6: FIFO round trip of the stdin ring buffer. Pushing any byte list
onto the empty buffer and then draining returns exactly the first
STDIN_BUFFER_SIZE bytes pushed, in push order: for k at most the capacity
the whole list comes back unchanged, and for capacity + 1 pushes exactly
the first capacity bytes come back, the newest byte having been silently
dropped with no existing entry evicted. -/
theorem stdin_push_pop_fifo (l : List Nat) :
    drain (pushAll StdinBuffer.new l) = l.take STDIN_BUFFER_SIZE := by
  rw [drain_pushAll l StdinBuffer.new wf_new]
  simp [contents, StdinBuffer.new]

lemma writeRun_append (a b : List Nat) : ∀ (base color : Nat) (mem : Nat → VgaTextChar),
    writeRun base color (a ++ b) mem =
      writeRun (base + a.length) color b (writeRun base color a mem) := by
  induction a with
  | nil => intro base color mem; rfl
  | cons c cs ih =>
      intro base color mem
      simp only [List.cons_append, writeRun, List.length_cons]
      simp only [List.append_eq]
      rw [ih]
      rw [show base + 1 + cs.length = base + (cs.length + 1) from by omega]

lemma writeRun_lower (l : List Nat) : ∀ (base color : Nat) (mem : Nat → VgaTextChar)
    (i : Nat), i < base → writeRun base color l mem i = mem i := by
  induction l with
  | nil => intro base color mem i _; rfl
  | cons c cs ih =>
      intro base color mem i hi
      simp only [writeRun]
      rw [ih (base + 1) color _ i (by omega), if_neg (by omega)]

lemma writeRun_get (l : List Nat) : ∀ (base color : Nat) (mem : Nat → VgaTextChar)
    (i : Nat) (hi : i < l.length),
    writeRun base color l mem (base + i) = ⟨l.get ⟨i, hi⟩, color⟩ := by
  induction l with
  | nil => intro base color mem i hi; exact absurd hi (by simp)
  | cons c cs ih =>
      intro base color mem i hi
      rcases i with _ | j
      · simp only [writeRun]
        rw [writeRun_lower cs (base + 1) color _ (base + 0) (by omega)]
        simp
      · simp only [writeRun]
        have hidx : base + (j + 1) = (base + 1) + j := by omega
        rw [hidx, ih (base + 1) color _ j (by simpa using hi)]
        rfl

/-- A printable byte with room left on the row: the glyph is written at
the cursor and the cursor moves one column right. -/
lemma putcharPub_glyph (s : VgaTextMode) (c : Nat)
    (hst : s.state = .PutChar) (hp : PrintableByte c)
    (hw : ¬ s.current_x + 1 ≥ VGA_BUFFER_WIDTH)
    (hy : ¬ s.current_y ≥ VGA_BUFFER_HEIGHT) :
    putcharPub c s = { s with
      current_x := s.current_x + 1,
      mem := fun i =>
        if i = s.current_y * VGA_BUFFER_WIDTH + s.current_x then
          ⟨c, s.current_color⟩
        else s.mem i } := by
  obtain ⟨h13, h10, h8, h27⟩ := hp
  have hpc : s.process_char c = s := by
    simp [VgaTextMode.process_char, hst, h27]
  simp only [putcharPub, hpc, hst]
  simp only [VgaTextMode.putchar, VgaTextMode.putcharMove]
  rw [if_neg h13, if_neg h10, if_neg h8]
  dsimp only
  rw [if_neg hw, if_neg hy, hst]

/-- A printable byte at the last column: the glyph is written, the cursor
wraps to column 0 of the next row, and (away from the bottom row) no
scroll fires. -/
lemma putcharPub_glyph_wrap (s : VgaTextMode) (c : Nat)
    (hst : s.state = .PutChar) (hp : PrintableByte c)
    (hw : s.current_x + 1 ≥ VGA_BUFFER_WIDTH)
    (hy : ¬ s.current_y + 1 ≥ VGA_BUFFER_HEIGHT) :
    putcharPub c s = { s with
      current_x := 0,
      current_y := s.current_y + 1,
      mem := fun i =>
        if i = s.current_y * VGA_BUFFER_WIDTH + s.current_x then
          ⟨c, s.current_color⟩
        else s.mem i } := by
  obtain ⟨h13, h10, h8, h27⟩ := hp
  have hpc : s.process_char c = s := by
    simp [VgaTextMode.process_char, hst, h27]
  simp only [putcharPub, hpc, hst]
  simp only [VgaTextMode.putchar, VgaTextMode.putcharMove]
  rw [if_neg h13, if_neg h10, if_neg h8]
  dsimp only
  rw [if_pos hw]
  dsimp only
  rw [if_neg hy, hst]

/-- Feeding printable bytes that fit strictly inside the current row
writes them into consecutive cells and advances the cursor by the length
of the run. -/
lemma feedT_glyph_run (l : List Nat) : ∀ s : VgaTextMode,
    s.state = .PutChar → (∀ c ∈ l, PrintableByte c) →
    s.current_x + l.length < VGA_BUFFER_WIDTH →
    s.current_y < VGA_BUFFER_HEIGHT →
    feedT l s = { s with
      current_x := s.current_x + l.length,
      mem := writeRun (s.current_y * VGA_BUFFER_WIDTH + s.current_x)
        s.current_color l s.mem } := by
  induction l with
  | nil => intro s hst hp hx hy; rfl
  | cons c cs ih =>
      intro s hst hp hx hy
      simp only [List.length_cons] at hx
      have hstep := putcharPub_glyph s c hst (hp c (List.mem_cons_self c cs))
        (by omega) (by omega)
      simp only [feedT]
      rw [hstep,
        ih { s with
            current_x := s.current_x + 1,
            mem := fun i =>
              if i = s.current_y * VGA_BUFFER_WIDTH + s.current_x then
                ⟨c, s.current_color⟩
              else s.mem i }
          hst (fun d hd => hp d (List.mem_cons_of_mem c hd))
          (by dsimp only; omega) hy]
      dsimp only
      simp only [writeRun, List.length_cons]
      rw [show s.current_x + 1 + cs.length = s.current_x + (cs.length + 1) from
        by omega]
      rw [show s.current_y * VGA_BUFFER_WIDTH + s.current_x + 1 =
          s.current_y * VGA_BUFFER_WIDTH + (s.current_x + 1) from by omega]

set_option maxRecDepth 10000 in
/-- C5 counterexample: with the cursor at column 0 of the bottom row
(current_y = HEIGHT - 1 = 24), writing WIDTH printable bytes does NOT
leave current_y incremented by 1: the row overflow triggers the scroll,
which moves the cursor back to row 24, so current_y ends unchanged
instead of becoming 25. -/
theorem row_fill_at_last_row_no_increment :
    lastRowMode.current_x = 0 ∧
    (feedT (List.replicate 80 65) lastRowMode).current_y ≠
      lastRowMode.current_y + 1 ∧
    (feedT (List.replicate 80 65) lastRowMode).current_y = 24 := by
  refine ⟨rfl, ?_, ?_⟩ <;> decide

/-- C5 (amended): starting from column 0 of any row other than the bottom
one, in the printable interpreter state, writing WIDTH consecutive
printable (non-control, non-ESC) bytes leaves current_x at 0, increments
current_y by exactly 1, and populates all WIDTH cells of the row in order
with the written bytes in the current color. On the bottom row the same
bytes are written but the immediate scroll leaves current_y unchanged. -/
theorem row_fill_increments_row (s : VgaTextMode) (l : List Nat)
    (hst : s.state = VgaTextState.PutChar) (hx : s.current_x = 0)
    (hy : s.current_y + 1 < VGA_BUFFER_HEIGHT)
    (hlen : l.length = VGA_BUFFER_WIDTH)
    (hp : ∀ c ∈ l, c ≠ 13 ∧ c ≠ 10 ∧ c ≠ 8 ∧ c ≠ 27) :
    (feedT l s).current_x = 0 ∧
    (feedT l s).current_y = s.current_y + 1 ∧
    ∀ i (hi : i < l.length),
      (feedT l s).mem (s.current_y * VGA_BUFFER_WIDTH + i) =
        ⟨l.get ⟨i, hi⟩, s.current_color⟩ := by
  rcases s with ⟨x, y, col, st, mem⟩
  dsimp only at hst hx hy ⊢
  subst hst
  subst hx
  have hne : l ≠ [] := by
    intro h
    rw [h] at hlen
    simp [VGA_BUFFER_WIDTH] at hlen
  have hdec := List.dropLast_append_getLast hne
  have hfl : l.dropLast.length = 79 := by
    rw [List.length_dropLast, hlen]
    decide
  have hrun := feedT_glyph_run l.dropLast ⟨0, y, col, .PutChar, mem⟩ rfl
    (fun c hc => hp c (List.dropLast_subset l hc))
    (by rw [hfl]; simp [VGA_BUFFER_WIDTH])
    (by dsimp only; omega)
  rw [hfl] at hrun
  have hfeed : feedT l (⟨0, y, col, .PutChar, mem⟩ : VgaTextMode) =
      { current_x := 0, current_y := y + 1, current_color := col,
        state := .PutChar,
        mem := writeRun (y * VGA_BUFFER_WIDTH + 0) col l mem } := by
    conv_lhs => rw [← hdec]
    rw [feedT_append, hrun]
    show putcharPub (l.getLast hne) _ = _
    refine Eq.trans (putcharPub_glyph_wrap _ _ rfl
      (hp _ (List.getLast_mem hne))
      (by dsimp only; simp only [VGA_BUFFER_WIDTH]; omega)
      (by dsimp only; omega)) ?_
    dsimp only
    congr 1
    conv_rhs => rw [← hdec, writeRun_append, hfl]
    simp only [writeRun]
  rw [hfeed]
  refine ⟨rfl, rfl, ?_⟩
  intro i hi
  exact writeRun_get l (y * VGA_BUFFER_WIDTH + 0) col mem i hi

/-- Witness for C5 (amended): eighty A bytes on the freshly initialized
device fill row 0 and move the cursor to row 1. -/
theorem row_fill_increments_row_witness :
    (feedT (List.replicate 80 65) initMode).current_x = 0 ∧
    (feedT (List.replicate 80 65) initMode).current_y =
      initMode.current_y + 1 ∧
    ∀ i (hi : i < (List.replicate 80 65).length),
      (feedT (List.replicate 80 65) initMode).mem
          (initMode.current_y * VGA_BUFFER_WIDTH + i) =
        ⟨(List.replicate 80 65).get ⟨i, hi⟩, initMode.current_color⟩ :=
  row_fill_increments_row initMode (List.replicate 80 65) rfl rfl
    (by decide) (by decide) (by decide)

end VgaBuffer
